import Mathlib

/-!
Verification of the MemoGarden core versioned-record store.

This file embeds the entity registry and versioned record store of the
MemoGarden repository.  The HTTP route handlers for transactions and
recurrences (`api/v1/core/transactions.py`, `api/v1/core/recurrences.py`)
and the request/response schemas (`api/schemas/transaction.py`,
`api/schemas/recurrence.py`) are translated directly from the source.
The storage engine behind them (`system.core`: `core.entity.*`,
`core.transaction.*`, `core.recurrence.*`, and the content hasher) is not
part of the available source tree; those operations are modelled from the
design specification and are marked `Modelled from the spec` in their doc
comments.

Identifiers are natural numbers (the source uses opaque 128-bit UUIDs;
freshness is modelled by a counter).  Timestamps are natural numbers.
Hash digests are decimal strings produced by a concrete deterministic
digest over a canonical (sorted) encoding of the business fields, mixed
with the predecessor hash, reduced modulo 2 ^ 256 to model a 256-bit
digest.  Database tables are association lists from id to row.
-/

namespace MemoGarden

/-! ### Association-list tables -/

/-- Lookup in an association list keyed by `κ`. -/
def lookupKey {κ α : Type} [DecidableEq κ] : List (κ × α) → κ → Option α
  | [], _ => none
  | (j, w) :: t, i => if j = i then some w else lookupKey t i

/-- Insert-or-overwrite in an association list keyed by `κ`. -/
def setKey {κ α : Type} [DecidableEq κ] : List (κ × α) → κ → α → List (κ × α)
  | [], i, v => [(i, v)]
  | (j, w) :: t, i, v => if j = i then (i, v) :: t else (j, w) :: setKey t i v

theorem lookup_set_self {κ α : Type} [DecidableEq κ] (l : List (κ × α)) (k : κ) (v : α) :
    lookupKey (setKey l k v) k = some v := by
  induction l with
  | nil => simp [setKey, lookupKey]
  | cons p t ih =>
    obtain ⟨j, w⟩ := p
    by_cases h : j = k <;> simp [setKey, lookupKey, h, ih]

theorem lookup_set_ne {κ α : Type} [DecidableEq κ] (l : List (κ × α)) (k k' : κ) (v : α)
    (h : k' ≠ k) : lookupKey (setKey l k v) k' = lookupKey l k' := by
  induction l with
  | nil => simp [setKey, lookupKey, Ne.symm h]
  | cons p t ih =>
    obtain ⟨j, w⟩ := p
    by_cases hj : j = k
    · subst hj
      simp [setKey, lookupKey, Ne.symm h]
    · by_cases hj' : j = k' <;> simp [setKey, lookupKey, hj, hj', h, Ne.symm h, ih]

/-! ### Hasher

Modelled from the spec: the source repository contains no implementation of
the content hasher (the design notes record that the exact hash algorithm
and canonical field encoding are not specified anywhere in the available
material).  Following the spec, the hasher is a pure function of
`(fields, previous_hash)` over a field-order-independent canonical
encoding: the field list is sorted by a total order on key/value pairs and
then folded into a digest seeded with the predecessor hash (or a fixed
sentinel for version 1). -/

/-- Total lexicographic comparison of character lists by code point. -/
def charListLe : List Char → List Char → Bool
  | [], _ => true
  | _ :: _, [] => false
  | a :: as, b :: bs =>
    if a.toNat < b.toNat then true
    else if b.toNat < a.toNat then false
    else charListLe as bs

/-- Total lexicographic comparison of strings. -/
def strLe (a b : String) : Bool := charListLe a.data b.data

/-- Total order on key/value pairs: by key, then by value. -/
def pairLe (p q : String × String) : Bool :=
  if p.1 == q.1 then strLe p.2 q.2 else strLe p.1 q.1

/-- The order `pairLe` as a propositional relation. -/
def pairLeR (p q : String × String) : Prop := pairLe p q = true

instance : DecidableRel pairLeR := fun p q => inferInstanceAs (Decidable (pairLe p q = true))

theorem charListLe_total (a b : List Char) : charListLe a b = true ∨ charListLe b a = true := by
  induction a generalizing b with
  | nil => left; rfl
  | cons x xs ih =>
    cases b with
    | nil => right; rfl
    | cons y ys =>
      by_cases h1 : x.toNat < y.toNat
      · left; simp [charListLe, h1]
      · by_cases h2 : y.toNat < x.toNat
        · right; simp [charListLe, h2]
        · rcases ih ys with h | h
          · left; simp [charListLe, h1, h2, h]
          · right; simp [charListLe, h1, h2, h]

theorem charListLe_antisymm (a b : List Char) (hab : charListLe a b = true)
    (hba : charListLe b a = true) : a = b := by
  induction a generalizing b with
  | nil =>
    cases b with
    | nil => rfl
    | cons y ys => simp [charListLe] at hba
  | cons x xs ih =>
    cases b with
    | nil => simp [charListLe] at hab
    | cons y ys =>
      by_cases h1 : x.toNat < y.toNat
      · simp [charListLe, h1, Nat.lt_asymm h1] at hba
      · by_cases h2 : y.toNat < x.toNat
        · simp [charListLe, h1, h2] at hab
        · have hxy : x = y := Char.eq_of_val_eq (UInt32.ext (Nat.le_antisymm
            (Nat.le_of_not_lt h2) (Nat.le_of_not_lt h1)))
          subst hxy
          simp [charListLe, Nat.lt_irrefl] at hab hba
          rw [ih ys hab hba]

theorem charListLe_trans (a b c : List Char) (hab : charListLe a b = true)
    (hbc : charListLe b c = true) : charListLe a c = true := by
  induction a generalizing b c with
  | nil => rfl
  | cons x xs ih =>
    cases b with
    | nil => simp [charListLe] at hab
    | cons y ys =>
      cases c with
      | nil => simp [charListLe] at hbc
      | cons z zs =>
        simp only [charListLe] at hab hbc ⊢
        by_cases hxy : x.toNat < y.toNat
        · by_cases hyz : y.toNat < z.toNat
          · simp [Nat.lt_trans hxy hyz]
          · by_cases hzy : z.toNat < y.toNat
            · simp [hyz, hzy] at hbc
            · have e : y.toNat = z.toNat :=
                Nat.le_antisymm (Nat.le_of_not_lt hzy) (Nat.le_of_not_lt hyz)
              simp [e ▸ hxy]
        · by_cases hyx : y.toNat < x.toNat
          · simp [hxy, hyx] at hab
          · have e1 : x.toNat = y.toNat :=
              Nat.le_antisymm (Nat.le_of_not_lt hyx) (Nat.le_of_not_lt hxy)
            by_cases hyz : y.toNat < z.toNat
            · simp [e1, hyz]
            · by_cases hzy : z.toNat < y.toNat
              · simp [hyz, hzy] at hbc
              · have e2 : y.toNat = z.toNat :=
                  Nat.le_antisymm (Nat.le_of_not_lt hzy) (Nat.le_of_not_lt hyz)
                simp [hxy, hyx, hyz, hzy] at hab hbc
                have hxz : ¬ x.toNat < z.toNat := by omega
                have hzx : ¬ z.toNat < x.toNat := by omega
                simp [hxz, hzx, ih ys zs hab hbc]

theorem strLe_total (a b : String) : strLe a b = true ∨ strLe b a = true :=
  charListLe_total a.data b.data

theorem strLe_antisymm (a b : String) (hab : strLe a b = true) (hba : strLe b a = true) :
    a = b :=
  String.ext (charListLe_antisymm a.data b.data hab hba)

theorem strLe_trans (a b c : String) (hab : strLe a b = true) (hbc : strLe b c = true) :
    strLe a c = true :=
  charListLe_trans a.data b.data c.data hab hbc

instance : IsTotal (String × String) pairLeR where
  total p q := by
    unfold pairLeR pairLe
    by_cases h : p.1 = q.1
    · simp only [h, beq_self_eq_true, if_true]
      exact strLe_total p.2 q.2
    · have h1 : (p.1 == q.1) = false := beq_eq_false_iff_ne.mpr h
      have h2 : (q.1 == p.1) = false := beq_eq_false_iff_ne.mpr (fun hh => h hh.symm)
      simp only [h1, h2, if_false]
      exact strLe_total p.1 q.1

instance : IsTrans (String × String) pairLeR where
  trans p q r hpq hqr := by
    unfold pairLeR pairLe at hpq hqr ⊢
    by_cases h1 : p.1 = q.1
    · by_cases h2 : q.1 = r.1
      · have e1 : (p.1 == q.1) = true := beq_iff_eq.mpr h1
        have e2 : (q.1 == r.1) = true := beq_iff_eq.mpr h2
        have e3 : (p.1 == r.1) = true := beq_iff_eq.mpr (h1.trans h2)
        simp only [e1, e2, e3, if_true] at hpq hqr ⊢
        exact strLe_trans _ _ _ hpq hqr
      · have e1 : (p.1 == q.1) = true := beq_iff_eq.mpr h1
        have e2 : (q.1 == r.1) = false := beq_eq_false_iff_ne.mpr h2
        have e3 : (p.1 == r.1) = false :=
          beq_eq_false_iff_ne.mpr (fun hh => h2 (h1.symm.trans hh))
        simp only [e1, e2, e3, if_true, if_false] at hpq hqr ⊢
        rw [h1]
        exact hqr
    · by_cases h2 : q.1 = r.1
      · have e1 : (p.1 == q.1) = false := beq_eq_false_iff_ne.mpr h1
        have e2 : (q.1 == r.1) = true := beq_iff_eq.mpr h2
        have e3 : (p.1 == r.1) = false :=
          beq_eq_false_iff_ne.mpr (fun hh => h1 (hh.trans h2.symm))
        simp only [e1, e2, e3, if_true, if_false] at hpq hqr ⊢
        rw [← h2]
        exact hpq
      · have e1 : (p.1 == q.1) = false := beq_eq_false_iff_ne.mpr h1
        have e2 : (q.1 == r.1) = false := beq_eq_false_iff_ne.mpr h2
        simp only [e1, e2, if_false] at hpq hqr
        by_cases h3 : p.1 = r.1
        · exact absurd (strLe_antisymm q.1 p.1 (h3 ▸ hqr) hpq) (fun hh => h1 hh.symm)
        · have e3 : (p.1 == r.1) = false := beq_eq_false_iff_ne.mpr h3
          simp only [e3, if_false]
          exact strLe_trans _ _ _ hpq hqr

instance : IsAntisymm (String × String) pairLeR where
  antisymm p q hpq hqp := by
    unfold pairLeR pairLe at hpq hqp
    by_cases h : p.1 = q.1
    · have e : (q.1 == p.1) = true := beq_iff_eq.mpr h.symm
      simp only [h, beq_self_eq_true, if_true, e] at hpq hqp
      exact Prod.ext h (strLe_antisymm p.2 q.2 hpq hqp)
    · have e1 : (p.1 == q.1) = false := beq_eq_false_iff_ne.mpr h
      have e2 : (q.1 == p.1) = false := beq_eq_false_iff_ne.mpr (fun hh => h hh.symm)
      simp only [e1, e2, if_false] at hpq hqp
      exact absurd (strLe_antisymm p.1 q.1 hpq hqp) h

/-- Canonical field encoding: sort the key/value pairs by the total order
`pairLeR`.  Two encodings of the same logical field set canonicalize to the
same list. -/
def canonicalEncode (fs : List (String × String)) : List (String × String) :=
  List.insertionSort pairLeR fs

theorem canonicalEncode_perm {fa fb : List (String × String)} (h : fa.Perm fb) :
    canonicalEncode fa = canonicalEncode fb :=
  List.eq_of_perm_of_sorted
    (((List.perm_insertionSort pairLeR fa).trans h).trans
      (List.perm_insertionSort pairLeR fb).symm)
    (List.sorted_insertionSort pairLeR fa)
    (List.sorted_insertionSort pairLeR fb)

/-- Numeric code of a string (injective enough for a model digest). -/
def strCode (s : String) : Nat :=
  s.data.foldl (fun a c => a * 131 + c.toNat + 1) 7

/-- Numeric code of one key/value field. -/
def fieldCode (p : String × String) : Nat :=
  strCode p.1 * 1000003 + strCode p.2

/-- Fixed sentinel mixed in at version 1 (no predecessor hash). -/
def hashSentinel : Nat := 987654321

/-- One digest mixing step, kept inside 256 bits. -/
def digestStep (a : Nat) (p : String × String) : Nat :=
  (a * 1000033 + fieldCode p) % 2 ^ 256

/-- Digest of a canonically encoded field list from a seed. -/
def digest (fs : List (String × String)) (seed : Nat) : Nat :=
  (canonicalEncode fs).foldl digestStep (seed % 2 ^ 256)

/-- Modelled from the spec: `hash(fields, previous_hash) -> digest`.  A pure
deterministic digest of the business fields under the canonical sorted
encoding, mixing in the predecessor hash, or the fixed sentinel when there
is none (version 1). -/
def hasher (fs : List (String × String)) (previous : Option String) : String :=
  toString (digest fs (match previous with | none => hashSentinel | some s => strCode s))

/-! ### Data model -/

/-- Error taxonomy of the core (spec section 7). -/
inductive CoreError where
  | notFound
  | immutableRecord
  | alreadySuperseded
  | storageError
deriving DecidableEq

/-- Entity registry row: identity and lifecycle bookkeeping shared by every
record kind (spec section 3; registry table of spec section 6). -/
structure Entity where
  kind : String
  createdAt : Nat
  updatedAt : Nat
  supersededBy : Option Nat
  supersededAt : Option Nat
  groupId : Option Nat
  derivedFrom : Option Nat
deriving DecidableEq

/-- Versioned transaction record row: business fields plus the hash chain
(`transactions` table joined into `transactions_view`). -/
structure TxRecord where
  fields : List (String × String)
  version : Nat
  hash : String
  previousHash : Option String
deriving DecidableEq

/-- Recurrence record row (`recurrences` table joined into
`recurrences_view`; the view exposes no hash or version columns). -/
structure RecRecord where
  rrule : String
  entities : String
  valid_from : Nat
  valid_until : Option Nat
deriving DecidableEq

/-- The whole datastore: registry table, one record table per kind, the
id-freshness counter and the clock. -/
structure CoreState where
  entities : List (Nat × Entity)
  txs : List (Nat × TxRecord)
  recs : List (Nat × RecRecord)
  nextId : Nat
  now : Nat
deriving DecidableEq

/-- The empty datastore. -/
def init0 : CoreState := { entities := [], txs := [], recs := [], nextId := 0, now := 0 }

/-! ### Entity registry operations

Modelled from the spec (section 4.2): `system.core` is not part of the
available source tree; only its call sites in the route handlers are. -/

/-- A freshly minted registry row: `created_at = updated_at = now`, no
supersession, group or provenance set. -/
def freshEntity (kind : String) (now : Nat) : Entity :=
  { kind := kind, createdAt := now, updatedAt := now,
    supersededBy := none, supersededAt := none, groupId := none, derivedFrom := none }

/-- Modelled from the spec: `core.entity.create(kind)` mints a new unique id
and inserts a fresh registry row. -/
def entityCreate (st : CoreState) (kind : String) : Nat × CoreState :=
  let i := st.nextId
  (i, { st with entities := setKey st.entities i (freshEntity kind st.now), nextId := i + 1 })

/-- Modelled from the spec: `touch(id)` sets `updated_at = now`; called by the
record store on every accepted update. -/
def entityTouch (st : CoreState) (i : Nat) : CoreState :=
  match lookupKey st.entities i with
  | none => st
  | some e =>
    let e' : Entity := { e with updatedAt := st.now }
    { st with entities := setKey st.entities i e' }

/-- Modelled from the spec: `core.entity.supersede(target, successor)` sets
`superseded_by`/`superseded_at`; fails `NotFound` when the target is unknown
and `AlreadySuperseded` when `superseded_by` is already set (one-shot,
terminal transition). -/
def entitySupersede (st : CoreState) (target succ : Nat) : Except CoreError CoreState :=
  match lookupKey st.entities target with
  | none => .error .notFound
  | some e =>
    match e.supersededBy with
    | some _ => .error .alreadySuperseded
    | none =>
      let e' : Entity := { e with supersededBy := some succ, supersededAt := some st.now }
      .ok { st with entities := setKey st.entities target e' }

/-! ### Versioned record store: transactions -/

/-- Modelled from the spec: `core.transaction.create` creates the entity and
the version-1 record atomically; `hash = Hasher(fields, null)`,
`previous_hash = null`. -/
def txCreate (st : CoreState) (fs : List (String × String)) : Nat × CoreState :=
  let p := entityCreate st "transactions"
  let r : TxRecord := { fields := fs, version := 1, hash := hasher fs none, previousHash := none }
  (p.1, { p.2 with txs := setKey p.2.txs p.1 r })

/-- Modelled from the spec: `core.transaction.get_by_id` reads the joined
view (registry row alongside record row); reads are supersession-agnostic. -/
def txGetById (st : CoreState) (i : Nat) : Option (Entity × TxRecord) :=
  match lookupKey st.entities i, lookupKey st.txs i with
  | some e, some r => some (e, r)
  | _, _ => none

/-- Merge the provided fields over the current fields: unspecified fields
keep their prior value (partial update, spec section 4.3 step 5). -/
def mergeFields (cur upd : List (String × String)) : List (String × String) :=
  upd.foldl (fun acc p => setKey acc p.1 p.2) cur

/-- Modelled from the spec: `core.transaction.update(id, fields)` — the write
side of the update algorithm (spec section 4.3 steps 1, 2, 5, 6, 7: read,
refuse superseded targets with `ImmutableRecord`, merge, bump version, extend
the hash chain, touch the entity).  The route handler, not this operation,
performs the precondition checks; no expected version or hash is passed down
here. -/
def coreTxUpdate (st : CoreState) (i : Nat) (upd : List (String × String)) :
    Except CoreError CoreState :=
  match lookupKey st.entities i, lookupKey st.txs i with
  | some e, some r =>
    if e.supersededBy.isSome then .error .immutableRecord
    else
      let merged := mergeFields r.fields upd
      let r' : TxRecord :=
        { fields := merged, version := r.version + 1,
          hash := hasher merged (some r.hash), previousHash := some r.hash }
      .ok (entityTouch { st with txs := setKey st.txs i r' } i)
  | _, _ => .error .notFound

/-! ### Route layer: transactions

Translated from `api/v1/core/transactions.py` and
`api/schemas/transaction.py`.  The business fields a client sets in a
`TransactionUpdate` body are modelled as the key/value list that
`data.model_dump(exclude_unset=True, exclude=\x7bbased_on_hash,
based_on_version\x7d)` produces. -/

/-- Request body of `PUT /transactions/:id` (`TransactionUpdate`): optional
business fields plus the two optimistic-locking fields. -/
structure TransactionUpdate where
  fields : List (String × String)
  based_on_hash : Option String
  based_on_version : Option Int
deriving DecidableEq

/-- Response body of a 409 (`ConflictResponse`): `current_hash` and
`current_version` are required, the client echoes default to null. -/
structure ConflictResponse where
  message : String
  current_hash : String
  current_version : Nat
  client_hash : Option String
  client_version : Option Int
deriving DecidableEq

/-- Outcome of the update route: 404, 409, a propagated core failure, or
200 with the freshly fetched joined row. -/
inductive UpdateOutcome where
  | notFound
  | conflict (c : ConflictResponse)
  | coreFail (e : CoreError)
  | ok (e : Entity) (r : TxRecord)
deriving DecidableEq

def UpdateOutcome.isOk : UpdateOutcome → Bool
  | .ok _ _ => true
  | _ => false

/-- The hash precondition check of `update_transaction`: Python
`if data.based_on_hash and data.based_on_hash != current_hash` — an empty
string is falsy, so it never triggers the check. -/
def hashConflictHit (data : TransactionUpdate) (cur : TxRecord) : Bool :=
  match data.based_on_hash with
  | none => false
  | some h => h != "" && h != cur.hash

/-- The version precondition check of `update_transaction`: Python
`if data.based_on_version is not None and data.based_on_version !=
current_version` — the value 0 is compared like any other. -/
def versionConflictHit (data : TransactionUpdate) (cur : TxRecord) : Bool :=
  match data.based_on_version with
  | none => false
  | some v => v != (cur.version : Int)

/-- The read step of the update route (`current_row =
core.transaction.get_by_id(...)`, line 232). -/
def updateTxRead (st : CoreState) (i : Nat) : Option TxRecord :=
  (txGetById st i).map Prod.snd

/-- The remainder of the update route after the read (lines 236 to 264):
conflict checks against the snapshot `cur` taken by `updateTxRead`, then an
unconditional `core.transaction.update` when any business field was
provided, then a fresh fetch.  The route acquires its connection with
`get_core()` without `atomic=True`, so nothing ties the snapshot to the
write: `st` here is whatever the datastore holds when this part runs. -/
def updateTxFinish (st : CoreState) (i : Nat) (data : TransactionUpdate)
    (cur : TxRecord) : UpdateOutcome × CoreState :=
  if hashConflictHit data cur then
    (.conflict { message := "Transaction was modified by another client",
                 current_hash := cur.hash, current_version := cur.version,
                 client_hash := data.based_on_hash, client_version := none }, st)
  else if versionConflictHit data cur then
    (.conflict { message := "Transaction version mismatch",
                 current_hash := cur.hash, current_version := cur.version,
                 client_hash := none, client_version := data.based_on_version }, st)
  else if data.fields.isEmpty then
    match txGetById st i with
    | some (e, r) => (.ok e r, st)
    | none => (.notFound, st)
  else
    match coreTxUpdate st i data.fields with
    | .error err => (.coreFail err, st)
    | .ok st1 =>
      match txGetById st1 i with
      | some (e, r) => (.ok e r, st1)
      | none => (.notFound, st1)

/-- `PUT /transactions/:id` (`update_transaction`, lines 192 to 264), as one
sequential call: read, then check-and-write against the same state. -/
def update_transaction (st : CoreState) (i : Nat) (data : TransactionUpdate) :
    UpdateOutcome × CoreState :=
  match updateTxRead st i with
  | none => (.notFound, st)
  | some cur => updateTxFinish st i data cur

/-- `DELETE /transactions/:id` (`delete_transaction`, lines 267 to 297):
inside one atomic unit-of-work, verify the row exists, mint a tombstone
entity of the same kind, and mark the original as superseded.  On error the
unit-of-work rolls back, so the minted tombstone is discarded. -/
def delete_transaction (st : CoreState) (i : Nat) : Except CoreError (Nat × CoreState) :=
  match txGetById st i with
  | none => .error .notFound
  | some _ =>
    match entitySupersede (entityCreate st "transactions").2 i
        (entityCreate st "transactions").1 with
    | .error e => .error e
    | .ok st2 => .ok ((entityCreate st "transactions").1, st2)

/-! ### Route layer: recurrences

Translated from `api/v1/core/recurrences.py` and
`api/schemas/recurrence.py`.  `RecurrenceUpdate` has exactly four optional
content fields and no optimistic-locking fields.  The RRULE and window
validators live in `system.utils` (not in the source tree) and are taken as
parameters; the claims hold for every choice of validator. -/

/-- Request body of `PUT /recurrences/:id` (`RecurrenceUpdate`): all fields
optional, no `based_on_hash`, no `based_on_version`.  `valid_until` set to
an explicit null is `some none`. -/
structure RecurrenceUpdate where
  rrule : Option String
  entities : Option String
  valid_from : Option Nat
  valid_until : Option (Option Nat)
deriving DecidableEq

/-- Whether `data.model_dump(exclude_unset=True)` is non-empty. -/
def RecurrenceUpdate.hasAnyField (d : RecurrenceUpdate) : Bool :=
  d.rrule.isSome || d.entities.isSome || d.valid_from.isSome || d.valid_until.isSome

/-- Outcome of the recurrence update route.  The `conflict` constructor
mirrors the 409 outcome of the transaction route; the theorem below shows
the recurrence route never produces it. -/
inductive RecOutcome where
  | notFound
  | badRequest (msg : String)
  | conflict (c : ConflictResponse)
  | coreFail (e : CoreError)
  | ok (e : Entity) (r : RecRecord)
deriving DecidableEq

def RecOutcome.isConflict : RecOutcome → Bool
  | .conflict _ => true
  | _ => false

def RecOutcome.isOk : RecOutcome → Bool
  | .ok _ _ => true
  | _ => false

/-- Modelled from the spec: `core.recurrence.get_by_id` reads the joined
view; reads are supersession-agnostic. -/
def recGetById (st : CoreState) (i : Nat) : Option (Entity × RecRecord) :=
  match lookupKey st.entities i, lookupKey st.recs i with
  | some e, some r => some (e, r)
  | _, _ => none

/-- Modelled from the spec: `core.recurrence.create` creates the entity and
the recurrence row atomically. -/
def recCreate (st : CoreState) (rr ents : String) (vf : Nat) (vu : Option Nat) :
    Nat × CoreState :=
  let p := entityCreate st "recurrences"
  let r : RecRecord := { rrule := rr, entities := ents, valid_from := vf, valid_until := vu }
  (p.1, { p.2 with recs := setKey p.2.recs p.1 r })

/-- Modelled from the spec: `core.recurrence.update(id, fields)` merges the
provided fields over the row (partial update), refusing superseded targets,
and touches the entity. -/
def coreRecUpdate (st : CoreState) (i : Nat) (d : RecurrenceUpdate) :
    Except CoreError CoreState :=
  match lookupKey st.entities i, lookupKey st.recs i with
  | some e, some r =>
    if e.supersededBy.isSome then .error .immutableRecord
    else
      let r' : RecRecord :=
        { rrule := d.rrule.getD r.rrule, entities := d.entities.getD r.entities,
          valid_from := d.valid_from.getD r.valid_from,
          valid_until := match d.valid_until with | some u => u | none => r.valid_until }
      .ok (entityTouch { st with recs := setKey st.recs i r' } i)
  | _, _ => .error .notFound

/-- The RRULE validation of the route: Python `if data.rrule and not
recurrence.validate_rrule(data.rrule)` — an empty string is falsy. -/
def rruleBad (validRrule : String → Bool) (d : RecurrenceUpdate) : Bool :=
  match d.rrule with
  | none => false
  | some r => r != "" && !(validRrule r)

/-- The write half of `update_recurrence` (`recurrences.py` lines 206 to
223): re-read the row, validate the merged recurrence window, call
`core.recurrence.update`, and fetch the updated row. -/
def recApplyUpdate (validWindow : Nat → Option Nat → Bool) (st : CoreState)
    (i : Nat) (data : RecurrenceUpdate) (row : RecRecord) : RecOutcome × CoreState :=
  if !validWindow (data.valid_from.getD row.valid_from)
      (match data.valid_until with | some u => u | none => row.valid_until) then
    (.badRequest "Invalid recurrence window", st)
  else
    match coreRecUpdate st i data with
    | .error err => (.coreFail err, st)
    | .ok st1 =>
      match recGetById st1 i with
      | some (e, r) => (.ok e r, st1)
      | none => (.notFound, st1)

/-- `PUT /recurrences/:id` (`update_recurrence`, lines 167 to 228): verify
existence, validate the RRULE if provided, and when any field was provided
validate the merged recurrence window and write; no conflict check of any
kind, and no precondition in the request body to check against. -/
def update_recurrence (validRrule : String → Bool)
    (validWindow : Nat → Option Nat → Bool) (st : CoreState) (i : Nat)
    (data : RecurrenceUpdate) : RecOutcome × CoreState :=
  match recGetById st i with
  | none => (.notFound, st)
  | some _ =>
    if rruleBad validRrule data then (.badRequest "Invalid RRULE format", st)
    else if !data.hasAnyField then
      match recGetById st i with
      | some (e, r) => (.ok e r, st)
      | none => (.notFound, st)
    else
      match recGetById st i with
      | none => (.notFound, st)
      | some (_, row) => recApplyUpdate validWindow st i data row

/-- `DELETE /recurrences/:id` (`delete_recurrence`, lines 231 to 258): same
tombstone protocol as for transactions, with kind `recurrences`. -/
def delete_recurrence (st : CoreState) (i : Nat) : Except CoreError (Nat × CoreState) :=
  match recGetById st i with
  | none => .error .notFound
  | some _ =>
    match entitySupersede (entityCreate st "recurrences").2 i
        (entityCreate st "recurrences").1 with
    | .error e => .error e
    | .ok st2 => .ok ((entityCreate st "recurrences").1, st2)

/-! ### Characterization lemmas -/

theorem txGetById_some_iff (st : CoreState) (i : Nat) (e : Entity) (r : TxRecord) :
    txGetById st i = some (e, r) ↔
      lookupKey st.entities i = some e ∧ lookupKey st.txs i = some r := by
  unfold txGetById
  cases he : lookupKey st.entities i <;> cases hr : lookupKey st.txs i <;>
    simp [he, hr, and_comm]

theorem recGetById_some_iff (st : CoreState) (i : Nat) (e : Entity) (r : RecRecord) :
    recGetById st i = some (e, r) ↔
      lookupKey st.entities i = some e ∧ lookupKey st.recs i = some r := by
  unfold recGetById
  cases he : lookupKey st.entities i <;> cases hr : lookupKey st.recs i <;>
    simp [he, hr, and_comm]

theorem entityTouch_txs (st : CoreState) (i : Nat) : (entityTouch st i).txs = st.txs := by
  unfold entityTouch; split <;> rfl

theorem entityTouch_recs (st : CoreState) (i : Nat) : (entityTouch st i).recs = st.recs := by
  unfold entityTouch; split <;> rfl

theorem entityTouch_nextId (st : CoreState) (i : Nat) :
    (entityTouch st i).nextId = st.nextId := by
  unfold entityTouch; split <;> rfl

theorem entityTouch_now (st : CoreState) (i : Nat) : (entityTouch st i).now = st.now := by
  unfold entityTouch; split <;> rfl

theorem entityTouch_entities (st : CoreState) (i : Nat) :
    (entityTouch st i).entities = st.entities ∨
    ∃ e, lookupKey st.entities i = some e ∧
      (entityTouch st i).entities = setKey st.entities i ({ e with updatedAt := st.now }) := by
  unfold entityTouch
  cases he : lookupKey st.entities i with
  | none => left; rfl
  | some e => right; exact ⟨e, rfl, rfl⟩

theorem coreTxUpdate_ok_spec (st : CoreState) (i : Nat) (upd : List (String × String))
    (st1 : CoreState) (h : coreTxUpdate st i upd = .ok st1) :
    ∃ e r, lookupKey st.entities i = some e ∧ lookupKey st.txs i = some r ∧
      e.supersededBy = none ∧
      st1.txs = setKey st.txs i
        ({ fields := mergeFields r.fields upd, version := r.version + 1,
           hash := hasher (mergeFields r.fields upd) (some r.hash),
           previousHash := some r.hash } : TxRecord) ∧
      st1.entities = setKey st.entities i ({ e with updatedAt := st.now }) ∧
      st1.recs = st.recs ∧ st1.nextId = st.nextId ∧ st1.now = st.now := by
  unfold coreTxUpdate at h
  split at h
  · rename_i e r he hr
    split at h
    · cases h
    · rename_i hs
      cases h
      refine ⟨e, r, he, hr, Option.not_isSome_iff_eq_none.mp hs, ?_, ?_, ?_, ?_, ?_⟩ <;>
        simp [entityTouch, he, lookupKey]
  · cases h

/-- Well-formedness of the datastore: every id at or above the freshness
counter is unregistered in every table. -/
def WF (st : CoreState) : Prop :=
  ∀ i, st.nextId ≤ i →
    lookupKey st.entities i = none ∧ lookupKey st.txs i = none ∧ lookupKey st.recs i = none

theorem coreRecUpdate_ok_spec (st : CoreState) (i : Nat) (d : RecurrenceUpdate)
    (st1 : CoreState) (h : coreRecUpdate st i d = .ok st1) :
    ∃ e r, lookupKey st.entities i = some e ∧ lookupKey st.recs i = some r ∧
      e.supersededBy = none ∧
      st1.txs = st.txs ∧
      st1.entities = setKey st.entities i ({ e with updatedAt := st.now }) ∧
      (∃ r', st1.recs = setKey st.recs i r') ∧
      st1.nextId = st.nextId ∧ st1.now = st.now := by
  unfold coreRecUpdate at h
  split at h
  · rename_i e r he hr
    split at h
    · cases h
    · rename_i hs
      cases h
      refine ⟨e, r, he, hr, Option.not_isSome_iff_eq_none.mp hs, ?_, ?_,
        ⟨({ rrule := d.rrule.getD r.rrule, entities := d.entities.getD r.entities,
            valid_from := d.valid_from.getD r.valid_from,
            valid_until := (match d.valid_until with
              | some u => u
              | none => r.valid_until) } : RecRecord),
          by simp [entityTouch, he]⟩, ?_, ?_⟩ <;>
        simp [entityTouch, he]
  · cases h

theorem entitySupersede_ok_spec (st : CoreState) (target succ : Nat) (st1 : CoreState)
    (h : entitySupersede st target succ = .ok st1) :
    ∃ e, lookupKey st.entities target = some e ∧ e.supersededBy = none ∧
      st1.entities = setKey st.entities target
        ({ e with supersededBy := some succ, supersededAt := some st.now }) ∧
      st1.txs = st.txs ∧ st1.recs = st.recs ∧ st1.nextId = st.nextId ∧
      st1.now = st.now := by
  unfold entitySupersede at h
  split at h
  · cases h
  · rename_i e he
    split at h
    · cases h
    · rename_i hn
      cases h
      exact ⟨e, he, hn, rfl, rfl, rfl, rfl, rfl⟩

theorem delete_tx_ok_spec (st : CoreState) (i : Nat) (t : Nat) (st' : CoreState)
    (hwf : WF st) (h : delete_transaction st i = .ok (t, st')) :
    t = st.nextId ∧
    ∃ e r, lookupKey st.entities i = some e ∧ lookupKey st.txs i = some r ∧
      e.supersededBy = none ∧ i < st.nextId ∧
      st'.txs = st.txs ∧ st'.recs = st.recs ∧
      st'.nextId = st.nextId + 1 ∧ st'.now = st.now ∧
      st'.entities = setKey (setKey st.entities st.nextId (freshEntity "transactions" st.now)) i
        ({ e with supersededBy := some t, supersededAt := some st.now }) := by
  unfold delete_transaction at h
  split at h
  · cases h
  · rename_i p hp
    obtain ⟨e0, r0⟩ := p
    rw [txGetById_some_iff] at hp
    obtain ⟨he0, hr0⟩ := hp
    have hi : i < st.nextId := by
      by_contra hc
      push_neg at hc
      rw [(hwf i hc).1] at he0
      cases he0
    split at h
    · cases h
    · rename_i st2 hsup
      cases h
      obtain ⟨e, he, hnone, hent, htxs, hrecs, hnext, hnow⟩ :=
        entitySupersede_ok_spec _ _ _ _ hsup
      have hne : i ≠ st.nextId := Nat.ne_of_lt hi
      rw [show (entityCreate st "transactions").2.entities =
            setKey st.entities st.nextId (freshEntity "transactions" st.now) from rfl,
          lookup_set_ne _ _ _ _ hne] at he
      exact ⟨rfl, e, r0, he, hr0, hnone, hi, htxs, hrecs, hnext, hnow, hent⟩

theorem delete_rec_ok_spec (st : CoreState) (i : Nat) (t : Nat) (st' : CoreState)
    (hwf : WF st) (h : delete_recurrence st i = .ok (t, st')) :
    t = st.nextId ∧
    ∃ e r, lookupKey st.entities i = some e ∧ lookupKey st.recs i = some r ∧
      e.supersededBy = none ∧ i < st.nextId ∧
      st'.txs = st.txs ∧ st'.recs = st.recs ∧
      st'.nextId = st.nextId + 1 ∧ st'.now = st.now ∧
      st'.entities = setKey (setKey st.entities st.nextId (freshEntity "recurrences" st.now)) i
        ({ e with supersededBy := some t, supersededAt := some st.now }) := by
  unfold delete_recurrence at h
  split at h
  · cases h
  · rename_i p hp
    obtain ⟨e0, r0⟩ := p
    rw [recGetById_some_iff] at hp
    obtain ⟨he0, hr0⟩ := hp
    have hi : i < st.nextId := by
      by_contra hc
      push_neg at hc
      rw [(hwf i hc).1] at he0
      cases he0
    split at h
    · cases h
    · rename_i st2 hsup
      cases h
      obtain ⟨e, he, hnone, hent, htxs, hrecs, hnext, hnow⟩ :=
        entitySupersede_ok_spec _ _ _ _ hsup
      have hne : i ≠ st.nextId := Nat.ne_of_lt hi
      rw [show (entityCreate st "recurrences").2.entities =
            setKey st.entities st.nextId (freshEntity "recurrences" st.now) from rfl,
          lookup_set_ne _ _ _ _ hne] at he
      exact ⟨rfl, e, r0, he, hr0, hnone, hi, htxs, hrecs, hnext, hnow, hent⟩

theorem update_transaction_state_cases (st : CoreState) (i : Nat) (data : TransactionUpdate) :
    (update_transaction st i data).2 = st ∨
    ∃ st1, coreTxUpdate st i data.fields = .ok st1 ∧ (update_transaction st i data).2 = st1 := by
  unfold update_transaction updateTxFinish
  split
  · left; rfl
  · split
    · left; rfl
    · split
      · left; rfl
      · split
        · split
          · left; rfl
          · left; rfl
        · split
          · left; rfl
          · rename_i st1 hok
            refine .inr ⟨st1, hok, ?_⟩
            split <;> rfl

theorem recApplyUpdate_state_cases (vw : Nat → Option Nat → Bool) (st : CoreState)
    (i : Nat) (d : RecurrenceUpdate) (row : RecRecord) :
    (recApplyUpdate vw st i d row).2 = st ∨
    ∃ st1, coreRecUpdate st i d = .ok st1 ∧ (recApplyUpdate vw st i d row).2 = st1 := by
  unfold recApplyUpdate
  split
  · left; rfl
  · cases hok : coreRecUpdate st i d with
    | error err => dsimp only [hok]; left; rfl
    | ok st1 =>
      dsimp only [hok]
      refine .inr ⟨st1, rfl, ?_⟩
      split <;> rfl

theorem update_recurrence_state_cases (vr : String → Bool) (vw : Nat → Option Nat → Bool)
    (st : CoreState) (i : Nat) (d : RecurrenceUpdate) :
    (update_recurrence vr vw st i d).2 = st ∨
    ∃ st1, coreRecUpdate st i d = .ok st1 ∧ (update_recurrence vr vw st i d).2 = st1 := by
  unfold update_recurrence
  split
  · left; rfl
  · split
    · left; rfl
    · split
      · split
        · left; rfl
        · left; rfl
      · split
        · left; rfl
        · exact recApplyUpdate_state_cases vw st i d _

/-- C3 (amended): every `Conflict` failure of the update route carries the
hash and version of the row the route read, plus exactly one client echo:
`client_hash` when the enforced hash check fired, otherwise `client_version`
when the version check fired — never both, even when the caller supplied
both preconditions (the hash check is tested first and each branch fills in
only its own echo). -/
theorem update_conflict_spec (st : CoreState) (i : Nat) (data : TransactionUpdate)
    (c : ConflictResponse) (st' : CoreState)
    (h : update_transaction st i data = (.conflict c, st')) :
    ∃ e r, txGetById st i = some (e, r) ∧ st' = st ∧
      c.current_hash = r.hash ∧ c.current_version = r.version ∧
      ((hashConflictHit data r = true ∧ c.client_hash = data.based_on_hash ∧
        c.client_version = none) ∨
       (hashConflictHit data r = false ∧ versionConflictHit data r = true ∧
        c.client_version = data.based_on_version ∧ c.client_hash = none)) := by
  unfold update_transaction at h
  split at h
  · cases h
  · rename_i cur hread
    unfold updateTxRead at hread
    cases hg : txGetById st i with
    | none => rw [hg] at hread; cases hread
    | some p =>
      obtain ⟨e, r⟩ := p
      rw [hg] at hread
      cases hread
      unfold updateTxFinish at h
      split at h
      · rename_i hhash
        cases h
        exact ⟨e, r, rfl, rfl, rfl, rfl, .inl ⟨by simpa using hhash, rfl, rfl⟩⟩
      · rename_i hhash
        split at h
        · rename_i hver
          cases h
          exact ⟨e, r, rfl, rfl, rfl, rfl,
            .inr ⟨by simpa using hhash, by simpa using hver, rfl, rfl⟩⟩
        · split at h
          · split at h <;> cases h
          · split at h
            · cases h
            · split at h <;> cases h

/-! ### Transition system

One step is one collaborator-facing operation of either kind; `Reach` is
reachability from the empty datastore. -/

/-- The state left behind by a delete route call (unchanged on error, since
the atomic unit-of-work rolls back). -/
def deleteTxState (st : CoreState) (i : Nat) : CoreState :=
  match delete_transaction st i with
  | .ok p => p.2
  | .error _ => st

/-- The state left behind by a recurrence delete route call. -/
def deleteRecState (st : CoreState) (i : Nat) : CoreState :=
  match delete_recurrence st i with
  | .ok p => p.2
  | .error _ => st

inductive Step : CoreState → CoreState → Prop where
  | txC (st : CoreState) (fs : List (String × String)) : Step st (txCreate st fs).2
  | txU (st : CoreState) (i : Nat) (data : TransactionUpdate) :
      Step st (update_transaction st i data).2
  | txD (st : CoreState) (i : Nat) : Step st (deleteTxState st i)
  | recC (st : CoreState) (rr ents : String) (vf : Nat) (vu : Option Nat) :
      Step st (recCreate st rr ents vf vu).2
  | recU (vr : String → Bool) (vw : Nat → Option Nat → Bool) (st : CoreState) (i : Nat)
      (d : RecurrenceUpdate) : Step st (update_recurrence vr vw st i d).2
  | recD (st : CoreState) (i : Nat) : Step st (deleteRecState st i)

inductive Reach : CoreState → Prop where
  | init : Reach init0
  | step {st st' : CoreState} : Reach st → Step st st' → Reach st'

theorem lt_of_lookup_entities_some {st : CoreState} {i : Nat} {e : Entity}
    (hwf : WF st) (h : lookupKey st.entities i = some e) : i < st.nextId := by
  by_contra hc
  push_neg at hc
  rw [(hwf i hc).1] at h
  cases h

theorem lt_of_lookup_txs_some {st : CoreState} {i : Nat} {r : TxRecord}
    (hwf : WF st) (h : lookupKey st.txs i = some r) : i < st.nextId := by
  by_contra hc
  push_neg at hc
  rw [(hwf i hc).2.1] at h
  cases h

theorem lt_of_lookup_recs_some {st : CoreState} {i : Nat} {r : RecRecord}
    (hwf : WF st) (h : lookupKey st.recs i = some r) : i < st.nextId := by
  by_contra hc
  push_neg at hc
  rw [(hwf i hc).2.2] at h
  cases h

theorem WF_txCreate {st : CoreState} (hwf : WF st) (fs : List (String × String)) :
    WF (txCreate st fs).2 := by
  intro j hj
  have hj1 : st.nextId ≤ j := by
    have : (txCreate st fs).2.nextId = st.nextId + 1 := rfl
    omega
  have hjne : j ≠ st.nextId := by
    have : (txCreate st fs).2.nextId = st.nextId + 1 := rfl
    omega
  obtain ⟨h1, h2, h3⟩ := hwf j hj1
  refine ⟨?_, ?_, ?_⟩
  · rw [show (txCreate st fs).2.entities =
      setKey st.entities st.nextId (freshEntity "transactions" st.now) from rfl,
      lookup_set_ne _ _ _ _ hjne]
    exact h1
  · rw [show (txCreate st fs).2.txs = setKey st.txs st.nextId
      ({ fields := fs, version := 1, hash := hasher fs none,
         previousHash := none } : TxRecord) from rfl,
      lookup_set_ne _ _ _ _ hjne]
    exact h2
  · exact h3

theorem WF_recCreate {st : CoreState} (hwf : WF st) (rr ents : String) (vf : Nat)
    (vu : Option Nat) : WF (recCreate st rr ents vf vu).2 := by
  intro j hj
  have hj1 : st.nextId ≤ j := by
    have : (recCreate st rr ents vf vu).2.nextId = st.nextId + 1 := rfl
    omega
  have hjne : j ≠ st.nextId := by
    have : (recCreate st rr ents vf vu).2.nextId = st.nextId + 1 := rfl
    omega
  obtain ⟨h1, h2, h3⟩ := hwf j hj1
  refine ⟨?_, ?_, ?_⟩
  · rw [show (recCreate st rr ents vf vu).2.entities =
      setKey st.entities st.nextId (freshEntity "recurrences" st.now) from rfl,
      lookup_set_ne _ _ _ _ hjne]
    exact h1
  · exact h2
  · rw [show (recCreate st rr ents vf vu).2.recs = setKey st.recs st.nextId
      ({ rrule := rr, entities := ents, valid_from := vf,
         valid_until := vu } : RecRecord) from rfl,
      lookup_set_ne _ _ _ _ hjne]
    exact h3

theorem WF_coreTxUpdate {st st1 : CoreState} {i : Nat} {upd : List (String × String)}
    (hwf : WF st) (h : coreTxUpdate st i upd = .ok st1) : WF st1 := by
  obtain ⟨e, r, he, hr, -, htxs, hent, hrecs, hnext, -⟩ := coreTxUpdate_ok_spec _ _ _ _ h
  have hi : i < st.nextId := lt_of_lookup_entities_some hwf he
  intro j hj
  rw [hnext] at hj
  have hjne : j ≠ i := by omega
  obtain ⟨h1, h2, h3⟩ := hwf j hj
  rw [htxs, hent, hrecs, lookup_set_ne _ _ _ _ hjne, lookup_set_ne _ _ _ _ hjne]
  exact ⟨h1, h2, h3⟩

theorem WF_coreRecUpdate {st st1 : CoreState} {i : Nat} {d : RecurrenceUpdate}
    (hwf : WF st) (h : coreRecUpdate st i d = .ok st1) : WF st1 := by
  obtain ⟨e, r, he, hr, -, htxs, hent, ⟨r', hrecs⟩, hnext, -⟩ := coreRecUpdate_ok_spec _ _ _ _ h
  have hi : i < st.nextId := lt_of_lookup_entities_some hwf he
  intro j hj
  rw [hnext] at hj
  have hjne : j ≠ i := by omega
  obtain ⟨h1, h2, h3⟩ := hwf j hj
  rw [htxs, hent, hrecs, lookup_set_ne _ _ _ _ hjne, lookup_set_ne _ _ _ _ hjne]
  exact ⟨h1, h2, h3⟩

theorem WF_update_transaction {st : CoreState} (hwf : WF st) (i : Nat)
    (data : TransactionUpdate) : WF (update_transaction st i data).2 := by
  rcases update_transaction_state_cases st i data with h | ⟨st1, hok, h⟩
  · rw [h]; exact hwf
  · rw [h]; exact WF_coreTxUpdate hwf hok

theorem WF_update_recurrence {st : CoreState} (hwf : WF st) (vr : String → Bool)
    (vw : Nat → Option Nat → Bool) (i : Nat) (d : RecurrenceUpdate) :
    WF (update_recurrence vr vw st i d).2 := by
  rcases update_recurrence_state_cases vr vw st i d with h | ⟨st1, hok, h⟩
  · rw [h]; exact hwf
  · rw [h]; exact WF_coreRecUpdate hwf hok

theorem WF_deleteTxState {st : CoreState} (hwf : WF st) (i : Nat) :
    WF (deleteTxState st i) := by
  unfold deleteTxState
  cases hd : delete_transaction st i with
  | error err => exact hwf
  | ok p =>
    obtain ⟨t, st'⟩ := p
    obtain ⟨ht, e, r, he, hr, -, hi, htxs, hrecs, hnext, -, hent⟩ :=
      delete_tx_ok_spec st i t st' hwf hd
    intro j hj
    rw [hnext] at hj
    have hji : j ≠ i := by omega
    have hjt : j ≠ st.nextId := by omega
    obtain ⟨h1, h2, h3⟩ := hwf j (by omega)
    rw [htxs, hrecs, hent, lookup_set_ne _ _ _ _ hji, lookup_set_ne _ _ _ _ hjt]
    exact ⟨h1, h2, h3⟩

theorem WF_deleteRecState {st : CoreState} (hwf : WF st) (i : Nat) :
    WF (deleteRecState st i) := by
  unfold deleteRecState
  cases hd : delete_recurrence st i with
  | error err => exact hwf
  | ok p =>
    obtain ⟨t, st'⟩ := p
    obtain ⟨ht, e, r, he, hr, -, hi, htxs, hrecs, hnext, -, hent⟩ :=
      delete_rec_ok_spec st i t st' hwf hd
    intro j hj
    rw [hnext] at hj
    have hji : j ≠ i := by omega
    have hjt : j ≠ st.nextId := by omega
    obtain ⟨h1, h2, h3⟩ := hwf j (by omega)
    rw [htxs, hrecs, hent, lookup_set_ne _ _ _ _ hji, lookup_set_ne _ _ _ _ hjt]
    exact ⟨h1, h2, h3⟩

theorem WF_step {st st' : CoreState} (hwf : WF st) (hs : Step st st') : WF st' := by
  cases hs with
  | txC st fs => exact WF_txCreate hwf fs
  | txU st i data => exact WF_update_transaction hwf i data
  | txD st i => exact WF_deleteTxState hwf i
  | recC st rr ents vf vu => exact WF_recCreate hwf rr ents vf vu
  | recU vr vw st i d => exact WF_update_recurrence hwf vr vw i d
  | recD st i => exact WF_deleteRecState hwf i

theorem WF_init0 : WF init0 := by
  intro i _
  exact ⟨rfl, rfl, rfl⟩

theorem WF_reach {st : CoreState} (h : Reach st) : WF st := by
  induction h with
  | init => exact WF_init0
  | step _ hs ih => exact WF_step ih hs

/-- How one step can change the transaction table at id `i`: untouched,
a fresh version-1 row with a null previous hash, or a chained bump of an
existing row. -/
theorem step_txs_cases {st st' : CoreState} (hwf : WF st) (hs : Step st st') (i : Nat) :
    lookupKey st'.txs i = lookupKey st.txs i ∨
    (lookupKey st.txs i = none ∧ ∃ fs, lookupKey st'.txs i =
      some ({ fields := fs, version := 1, hash := hasher fs none,
              previousHash := none } : TxRecord)) ∨
    (∃ r merged, lookupKey st.txs i = some r ∧ lookupKey st'.txs i =
      some ({ fields := merged, version := r.version + 1,
              hash := hasher merged (some r.hash),
              previousHash := some r.hash } : TxRecord)) := by
  cases hs with
  | txC _ fs =>
    by_cases hi : i = st.nextId
    · subst hi
      right; left
      refine ⟨(hwf _ (le_refl _)).2.1, fs, ?_⟩
      rw [show (txCreate st fs).2.txs = setKey st.txs st.nextId
        ({ fields := fs, version := 1, hash := hasher fs none,
           previousHash := none } : TxRecord) from rfl, lookup_set_self]
    · left
      rw [show (txCreate st fs).2.txs = setKey st.txs st.nextId
        ({ fields := fs, version := 1, hash := hasher fs none,
           previousHash := none } : TxRecord) from rfl, lookup_set_ne _ _ _ _ hi]
  | txU _ i0 data =>
    rcases update_transaction_state_cases st i0 data with h | ⟨st1, hok, h⟩
    · left; rw [h]
    · obtain ⟨e, r, he, hr, -, htxs, -, -, -, -⟩ := coreTxUpdate_ok_spec _ _ _ _ hok
      by_cases hi : i = i0
      · subst hi
        right; right
        exact ⟨r, mergeFields r.fields data.fields, hr, by rw [h, htxs, lookup_set_self]⟩
      · left
        rw [h, htxs, lookup_set_ne _ _ _ _ hi]
  | txD _ i0 =>
    cases hd : delete_transaction st i0 with
    | error err => left; simp [deleteTxState, hd]
    | ok p =>
      obtain ⟨t, st2⟩ := p
      obtain ⟨-, e, r, -, -, -, -, htxs, -, -, -, -⟩ := delete_tx_ok_spec st i0 t st2 hwf hd
      left; simp [deleteTxState, hd, htxs]
  | recC _ rr ents vf vu => left; rfl
  | recU vr vw _ i0 d =>
    rcases update_recurrence_state_cases vr vw st i0 d with h | ⟨st1, hok, h⟩
    · left; rw [h]
    · obtain ⟨-, -, -, -, -, htxs, -, -, -, -⟩ := coreRecUpdate_ok_spec _ _ _ _ hok
      left; rw [h, htxs]
  | recD _ i0 =>
    cases hd : delete_recurrence st i0 with
    | error err => left; simp [deleteRecState, hd]
    | ok p =>
      obtain ⟨t, st2⟩ := p
      obtain ⟨-, e, r, -, -, -, -, htxs, -, -, -, -⟩ := delete_rec_ok_spec st i0 t st2 hwf hd
      left; simp [deleteRecState, hd, htxs]

/-- The per-record invariant of the versioned store: a strictly positive
version, and a null previous hash exactly at version 1. -/
def InvTx (st : CoreState) : Prop :=
  ∀ i r, lookupKey st.txs i = some r →
    1 ≤ r.version ∧ (r.previousHash = none ↔ r.version = 1)

theorem InvTx_init0 : InvTx init0 := by
  intro i r h
  exact Option.noConfusion h

theorem InvTx_step {st st' : CoreState} (hwf : WF st) (hinv : InvTx st)
    (hs : Step st st') : InvTx st' := by
  intro i r' hr'
  rcases step_txs_cases hwf hs i with h | ⟨hnone, fs, hnew⟩ | ⟨r, merged, hold, hnew⟩
  · rw [h] at hr'
    exact hinv i r' hr'
  · rw [hnew] at hr'
    cases hr'
    exact ⟨le_refl 1, by simp⟩
  · rw [hnew] at hr'
    cases hr'
    have h1 := (hinv i r hold).1
    refine ⟨?_, ?_⟩
    · show 1 ≤ r.version + 1
      omega
    · show some r.hash = none ↔ r.version + 1 = 1
      constructor
      · intro hh
        cases hh
      · intro hh
        exact absurd hh (by omega)

theorem InvTx_reach {st : CoreState} (h : Reach st) : InvTx st := by
  induction h with
  | init => exact InvTx_init0
  | step hr hs ih => exact InvTx_step (WF_reach hr) ih hs

instance {ε α : Type} [DecidableEq ε] [DecidableEq α] : DecidableEq (Except ε α) := fun a b =>
  match a, b with
  | .ok x, .ok y =>
    if h : x = y then .isTrue (by rw [h]) else .isFalse (by intro hh; cases hh; exact h rfl)
  | .error x, .error y =>
    if h : x = y then .isTrue (by rw [h]) else .isFalse (by intro hh; cases hh; exact h rfl)
  | .ok _, .error _ => .isFalse (by intro hh; cases hh)
  | .error _, .ok _ => .isFalse (by intro hh; cases hh)

/-! ### Concrete scenario

The running example of the spec (section 8): a transaction created with
amount -15.50 on account Personal, then updated, raced, deleted. -/

def exFields : List (String × String) := [("amount", "-15.50"), ("account", "Personal")]

def exId : Nat := (txCreate init0 exFields).1

def exSt0 : CoreState := (txCreate init0 exFields).2

def exCur : TxRecord :=
  { fields := exFields, version := 1, hash := hasher exFields none, previousHash := none }

def updA : TransactionUpdate :=
  { fields := [("amount", "-16.00")], based_on_hash := none, based_on_version := some 1 }

def updB : TransactionUpdate :=
  { fields := [("amount", "-17.00")], based_on_hash := none, based_on_version := some 1 }

/-- Writer A finishes first, against the shared snapshot `exCur`. -/
def raceA : UpdateOutcome × CoreState := updateTxFinish exSt0 exId updA exCur

/-- Writer B finishes second, still holding the stale snapshot `exCur`. -/
def raceB : UpdateOutcome × CoreState := updateTxFinish raceA.2 exId updB exCur

def delSt : CoreState := deleteTxState exSt0 exId

def updStale : TransactionUpdate :=
  { fields := [("amount", "-18.00")], based_on_hash := none, based_on_version := some 0 }

def updNoPre : TransactionUpdate :=
  { fields := [("amount", "-18.00")], based_on_hash := none, based_on_version := none }

def delE : Entity :=
  { kind := "transactions", createdAt := 0, updatedAt := 0, supersededBy := some 1,
    supersededAt := some 0, groupId := none, derivedFrom := none }

def bothData : TransactionUpdate :=
  { fields := [("amount", "-20.00")], based_on_hash := some "deadbeef",
    based_on_version := some 5 }

def cHashConc : ConflictResponse :=
  { message := "Transaction was modified by another client", current_hash := exCur.hash,
    current_version := 1, client_hash := some "deadbeef", client_version := none }

def updTruthy : TransactionUpdate :=
  { fields := [("amount", "-19.00")], based_on_hash := some "", based_on_version := some 0 }

def allRrule : String → Bool := fun _ => true

def allWindow : Nat → Option Nat → Bool := fun _ _ => true

def recSt0 : CoreState := (recCreate init0 "FREQ=MONTHLY" "[]" 0 none).2

def recRow0 : RecRecord :=
  { rrule := "FREQ=MONTHLY", entities := "[]", valid_from := 0, valid_until := none }

def recUpd1 : RecurrenceUpdate :=
  { rrule := some "FREQ=WEEKLY", entities := none, valid_from := none, valid_until := none }

def recUpd2 : RecurrenceUpdate :=
  { rrule := none, entities := some "[1]", valid_from := none, valid_until := none }

def recSt1 : CoreState := (update_recurrence allRrule allWindow recSt0 0 recUpd1).2

def recRow1 : RecRecord :=
  { rrule := "FREQ=WEEKLY", entities := "[]", valid_from := 0, valid_until := none }

/-! ### Shared helpers for the claim theorems -/

theorem WF_exSt0 : WF exSt0 := by
  intro j hj
  have h0 : (0 : Nat) ≠ j := by
    have h1 : 1 ≤ j := hj
    omega
  refine ⟨?_, ?_, rfl⟩ <;>
    simp [exSt0, txCreate, entityCreate, init0, setKey, lookupKey, h0]

theorem WF_recSt0 : WF recSt0 := by
  intro j hj
  have h0 : (0 : Nat) ≠ j := by
    have h1 : 1 ≤ j := hj
    omega
  refine ⟨?_, rfl, ?_⟩ <;>
    simp [recSt0, recCreate, entityCreate, init0, setKey, lookupKey, h0]

/-- A supplied version precondition that mismatches the row the route read
is answered with a 409 carrying the current hash and version and echoing
`client_version`, provided the hash check (tested first) did not fire. -/
theorem version_mismatch_conflict (st : CoreState) (i : Nat) (data : TransactionUpdate)
    (e : Entity) (r : TxRecord) (v : Int) (hg : txGetById st i = some (e, r))
    (hh : hashConflictHit data r = false) (hv : data.based_on_version = some v)
    (hne : v ≠ (r.version : Int)) :
    (update_transaction st i data).1 =
      .conflict ({ message := "Transaction version mismatch", current_hash := r.hash,
                   current_version := r.version, client_hash := none,
                   client_version := some v } : ConflictResponse) := by
  have h1 : updateTxRead st i = some r := by simp [updateTxRead, hg]
  have hvhit : versionConflictHit data r = true := by
    simp [versionConflictHit, hv, bne_iff_ne, hne]
  simp [update_transaction, h1, updateTxFinish, hh, hvhit, hv]

/-! ### Claim theorems -/

/-- C1: the update route is a read-then-write sequence, not an atomic
compare-and-swap.  The read (`get_by_id`, line 232) and the unconditional
write (`core.transaction.update`, line 259) run on a plain connection with
no atomic scope, and the write is not keyed on the version the route
observed.  In the interleaving read-A, read-B, finish-A, finish-B, both
updates are issued against starting version 1 and both succeed with a 200,
leaving the record at version 3 — the lost update the spec says must be
impossible.  This refutes the claim that exactly one of two concurrent
updates against the same starting version succeeds. -/
theorem update_race_both_succeed :
    updateTxRead exSt0 exId = some exCur ∧
    exCur.version = 1 ∧ updA.based_on_version = some 1 ∧ updB.based_on_version = some 1 ∧
    raceA.1.isOk = true ∧ raceB.1.isOk = true ∧
    (lookupKey raceB.2.txs exId).map TxRecord.version = some 3 := by
  decide

/-- C2 counterexample: on a superseded record, an update whose version
precondition mismatches is answered with `Conflict`, not `ImmutableRecord` —
the precondition checks run before the write that would refuse the
superseded target, so the claim `regardless of the precondition supplied`
fails. -/
theorem superseded_update_conflict_counterexample :
    (lookupKey delSt.entities exId).map Entity.supersededBy = some (some 1) ∧
    (update_transaction delSt exId updStale).1 =
      .conflict ({ message := "Transaction version mismatch", current_hash := exCur.hash,
                   current_version := 1, client_hash := none,
                   client_version := some 0 } : ConflictResponse) ∧
    (update_transaction delSt exId updStale).1 ≠ .coreFail .immutableRecord := by
  decide

/-- C2 (amended): an update on a record whose entity is superseded fails
with `ImmutableRecord` whenever it supplies at least one business field and
no failing precondition; a failing precondition is answered with `Conflict`
instead, and an update supplying no business fields returns the current row
unchanged. -/
theorem superseded_update_immutable_amended :
    ∀ (st : CoreState) (i : Nat) (data : TransactionUpdate) (e : Entity) (r : TxRecord),
      txGetById st i = some (e, r) → e.supersededBy.isSome = true →
      hashConflictHit data r = false → versionConflictHit data r = false →
      (data.fields ≠ [] → (update_transaction st i data).1 = .coreFail .immutableRecord) ∧
      (data.fields = [] → update_transaction st i data = (.ok e r, st)) := by
  intro st i data e r hg hsup hh hv
  obtain ⟨he, hr⟩ := (txGetById_some_iff st i e r).mp hg
  have h1 : updateTxRead st i = some r := by simp [updateTxRead, hg]
  constructor
  · intro hne
    have hne' : data.fields.isEmpty = false := by
      cases hf : data.fields with
      | nil => exact absurd hf hne
      | cons a l => rfl
    have hcu : coreTxUpdate st i data.fields = .error .immutableRecord := by
      simp [coreTxUpdate, he, hr, hsup]
    simp [update_transaction, h1, updateTxFinish, hh, hv, hne', hcu]
  · intro hemp
    have hemp' : data.fields.isEmpty = true := by rw [hemp]; rfl
    simp [update_transaction, h1, updateTxFinish, hh, hv, hemp', hg]

/-- C2 witness: the deleted transaction of the running example, updated with
no precondition and one business field, fails with `ImmutableRecord`. -/
theorem superseded_update_immutable_amended_witness :
    txGetById delSt exId = some (delE, exCur) ∧ delE.supersededBy.isSome = true ∧
    hashConflictHit updNoPre exCur = false ∧ versionConflictHit updNoPre exCur = false ∧
    (update_transaction delSt exId updNoPre).1 = .coreFail .immutableRecord :=
  ⟨by decide, by decide, by decide, by decide,
   (superseded_update_immutable_amended delSt exId updNoPre delE exCur (by decide) (by decide)
     (by decide) (by decide)).1 (by decide)⟩

/-- C6: the Hasher is a pure function of `(fields, previous_hash)`, and two
field lists that encode the same logical field set in any order hash
identically, because the digest runs over the canonical sorted encoding. -/
theorem hasher_canonical_deterministic :
    ∀ (p : Option String) (fa fb : List (String × String)), fa.Perm fb →
      hasher fa p = hasher fb p := by
  intro p fa fb h
  unfold hasher digest
  rw [canonicalEncode_perm h]

/-- C6 witness: the two encoding orders of the example field set hash
identically, with and without a predecessor hash. -/
theorem hasher_canonical_deterministic_witness :
    exFields.Perm [("account", "Personal"), ("amount", "-15.50")] ∧
    hasher exFields (some "abc") =
      hasher [("account", "Personal"), ("amount", "-15.50")] (some "abc") ∧
    hasher exFields none = hasher [("account", "Personal"), ("amount", "-15.50")] none :=
  ⟨by decide, hasher_canonical_deterministic (some "abc") _ _ (by decide),
   hasher_canonical_deterministic none _ _ (by decide)⟩

/-- C3 counterexample: the caller supplies both `based_on_hash` (mismatching)
and `based_on_version`; the 409 carries `client_hash` but `client_version`
is null, refuting the claim that a Conflict carries `client_version`
whenever the caller supplied a version precondition. -/
theorem conflict_payload_counterexample :
    bothData.based_on_version = some 5 ∧
    update_transaction exSt0 exId bothData = (.conflict cHashConc, exSt0) ∧
    cHashConc.client_version = none := by
  decide

/-- C3 witness: the amended characterization applied to the concrete
double-precondition conflict. -/
theorem conflict_payload_witness :
    ∃ e r, txGetById exSt0 exId = some (e, r) ∧ exSt0 = exSt0 ∧
      cHashConc.current_hash = r.hash ∧ cHashConc.current_version = r.version ∧
      ((hashConflictHit bothData r = true ∧ cHashConc.client_hash = bothData.based_on_hash ∧
        cHashConc.client_version = none) ∨
       (hashConflictHit bothData r = false ∧ versionConflictHit bothData r = true ∧
        cHashConc.client_version = bothData.based_on_version ∧
        cHashConc.client_hash = none)) :=
  update_conflict_spec exSt0 exId bothData cHashConc exSt0 (by decide)

/-- C4: version discipline of the versioned record store.  A creation gives
the new record version 1; an accepted write of `core.transaction.update`
sets version to exactly the old version plus 1; and along every reachable
step of the system no transaction record is ever removed, no version ever
decreases, and no version ever skips a value (it changes by 0 or +1, and
records appear at version 1). -/
theorem version_discipline :
    (∀ (st : CoreState) (fs : List (String × String)),
      lookupKey ((txCreate st fs).2).txs (txCreate st fs).1 =
        some ({ fields := fs, version := 1, hash := hasher fs none,
                previousHash := none } : TxRecord)) ∧
    (∀ (st st1 : CoreState) (i : Nat) (upd : List (String × String)) (r : TxRecord),
      coreTxUpdate st i upd = .ok st1 → lookupKey st.txs i = some r →
      (lookupKey st1.txs i).map TxRecord.version = some (r.version + 1)) ∧
    (∀ (st st' : CoreState), Reach st → Step st st' → ∀ (i : Nat),
      (∀ r', lookupKey st.txs i = none → lookupKey st'.txs i = some r' → r'.version = 1) ∧
      (∀ r r', lookupKey st.txs i = some r → lookupKey st'.txs i = some r' →
        r'.version = r.version ∨ r'.version = r.version + 1) ∧
      (∀ r, lookupKey st.txs i = some r → (lookupKey st'.txs i).isSome = true)) := by
  refine ⟨?_, ?_, ?_⟩
  · intro st fs
    exact lookup_set_self _ _ _
  · intro st st1 i upd r hok hr
    obtain ⟨e, r0, he, hr0, -, htxs, -, -, -, -⟩ := coreTxUpdate_ok_spec _ _ _ _ hok
    rw [hr] at hr0
    cases hr0
    rw [htxs, lookup_set_self]
    rfl
  · intro st st' hre hs i
    have hwf := WF_reach hre
    refine ⟨?_, ?_, ?_⟩
    · intro r' hnone hsome
      rcases step_txs_cases hwf hs i with h | ⟨-, fs, h2⟩ | ⟨r0, merged, h0, -⟩
      · rw [h, hnone] at hsome
        cases hsome
      · rw [h2] at hsome
        cases hsome
        rfl
      · rw [hnone] at h0
        cases h0
    · intro r r' hold hnew
      rcases step_txs_cases hwf hs i with h | ⟨hn, fs, h2⟩ | ⟨r0, merged, h0, h2⟩
      · rw [h, hold] at hnew
        cases hnew
        left
        rfl
      · rw [hn] at hold
        cases hold
      · rw [h0] at hold
        cases hold
        rw [h2] at hnew
        cases hnew
        right
        rfl
    · intro r hold
      rcases step_txs_cases hwf hs i with h | ⟨hn, fs, h2⟩ | ⟨r0, merged, h0, h2⟩
      · rw [h, hold]
        rfl
      · rw [hn] at hold
        cases hold
      · rw [h2]
        rfl

/-- C4 witness: the running example — creation lands at version 1, and the
accepted update bumps it to exactly 2. -/
theorem version_discipline_witness :
    lookupKey exSt0.txs exId =
      some ({ fields := exFields, version := 1, hash := hasher exFields none,
              previousHash := none } : TxRecord) ∧
    (lookupKey raceA.2.txs exId).map TxRecord.version = some (exCur.version + 1) ∧
    exCur.version = 1 := by
  refine ⟨version_discipline.1 init0 exFields, ?_, ?_⟩
  · exact version_discipline.2.1 exSt0 raceA.2 exId updA.fields exCur (by decide) (by decide)
  · exact (version_discipline.2.2 init0 exSt0 Reach.init (Step.txC init0 exFields) exId).1
      exCur (by decide) (by decide)

def exCur2 : TxRecord :=
  { fields := [("amount", "-16.00"), ("account", "Personal")], version := 2,
    hash := hasher [("amount", "-16.00"), ("account", "Personal")] (some exCur.hash),
    previousHash := some exCur.hash }

/-- C5: hash-chain integrity.  After any reachable step, every transaction
record has a null `previous_hash` exactly at version 1 (and version at least
1); and when a step changes an existing record, the new row is at version
`v + 1` with `previous_hash` equal to the hash the record had at version
`v` — so for every `v > 1`, the previous hash at `v` is the hash at
`v - 1`, after every create and every accepted update. -/
theorem hash_chain_integrity :
    ∀ (st st' : CoreState), Reach st → Step st st' →
      (∀ (i : Nat) (r' : TxRecord), lookupKey st'.txs i = some r' →
        1 ≤ r'.version ∧ (r'.previousHash = none ↔ r'.version = 1)) ∧
      (∀ (i : Nat) (r r' : TxRecord), lookupKey st.txs i = some r →
        lookupKey st'.txs i = some r' →
        r' = r ∨ (r'.version = r.version + 1 ∧ r'.previousHash = some r.hash)) := by
  intro st st' hre hs
  have hwf := WF_reach hre
  have hinv := InvTx_reach hre
  constructor
  · exact fun i r' h => InvTx_step hwf hinv hs i r' h
  · intro i r r' hold hnew
    rcases step_txs_cases hwf hs i with h | ⟨hn, fs, h2⟩ | ⟨r0, merged, h0, h2⟩
    · rw [h, hold] at hnew
      cases hnew
      left
      rfl
    · rw [hn] at hold
      cases hold
    · rw [h0] at hold
      cases hold
      rw [h2] at hnew
      cases hnew
      right
      exact ⟨rfl, rfl⟩

/-- C5 witness: the accepted update of the running example chains version 2
back to the version-1 hash, and the invariant holds on the new row. -/
theorem hash_chain_integrity_witness :
    (1 ≤ exCur2.version ∧ (exCur2.previousHash = none ↔ exCur2.version = 1)) ∧
    (exCur2 = exCur ∨
      (exCur2.version = exCur.version + 1 ∧ exCur2.previousHash = some exCur.hash)) := by
  have h := hash_chain_integrity exSt0 (update_transaction exSt0 exId updA).2
    (Reach.step Reach.init (Step.txC init0 exFields)) (Step.txU exSt0 exId updA)
  exact ⟨h.1 exId exCur2 (by decide), h.2 exId exCur exCur2 (by decide) (by decide)⟩

/-- C7: supersession is one-shot and terminal.  After a successful delete,
deleting the same id again fails with `AlreadySuperseded` (as does any
further supersede of that entity), and the minted tombstone id is distinct
from the deleted id and from every id registered before the delete. -/
theorem delete_one_shot_terminal :
    ∀ (st : CoreState) (i t : Nat) (st' : CoreState), WF st →
      delete_transaction st i = .ok (t, st') →
      delete_transaction st' i = .error .alreadySuperseded ∧
      (∀ s, entitySupersede st' i s = .error .alreadySuperseded) ∧
      t ≠ i ∧ (∀ j e, lookupKey st.entities j = some e → t ≠ j) := by
  intro st i t st' hwf hd
  obtain ⟨ht, e, r, he, hr, hnone, hi, htxs, hrecs, hnext, hnow, hent⟩ :=
    delete_tx_ok_spec st i t st' hwf hd
  subst ht
  have hent_i : lookupKey st'.entities i =
      some ({ e with supersededBy := some st.nextId, supersededAt := some st.now }) := by
    rw [hent, lookup_set_self]
  have hget : txGetById st' i =
      some ({ e with supersededBy := some st.nextId, supersededAt := some st.now }, r) :=
    (txGetById_some_iff _ _ _ _).mpr ⟨hent_i, by rw [htxs]; exact hr⟩
  have hi' : i ≠ st'.nextId := by
    rw [hnext]
    omega
  have hent_i2 : lookupKey (entityCreate st' "transactions").2.entities i =
      some ({ e with supersededBy := some st.nextId, supersededAt := some st.now }) := by
    rw [show (entityCreate st' "transactions").2.entities =
          setKey st'.entities st'.nextId (freshEntity "transactions" st'.now) from rfl,
        lookup_set_ne _ _ _ _ hi']
    exact hent_i
  refine ⟨?_, ?_, ?_, ?_⟩
  · simp [delete_transaction, hget, entitySupersede, hent_i2]
  · intro s
    simp [entitySupersede, hent_i]
  · exact Ne.symm (Nat.ne_of_lt hi)
  · intro j e0 hj
    exact Ne.symm (Nat.ne_of_lt (lt_of_lookup_entities_some hwf hj))

/-- C7 witness: deleting the example transaction twice — the second call
fails `AlreadySuperseded` and the tombstone id 1 differs from the target
id 0. -/
theorem delete_one_shot_terminal_witness :
    delete_transaction exSt0 exId = .ok (1, delSt) ∧
    delete_transaction delSt exId = .error .alreadySuperseded ∧ (1 : Nat) ≠ exId := by
  refine ⟨by decide, ?_, by decide⟩
  exact (delete_one_shot_terminal exSt0 exId 1 delSt WF_exSt0 (by decide)).1

/-- C8: the frame of delete.  A successful delete leaves the transaction
table and the recurrence table untouched (so the record keeps its fields,
version, hash and previous hash byte for byte), changes only the target
entity — and only its `superseded_by`/`superseded_at` fields — creates
exactly one brand-new tombstone entity at a previously unregistered id,
leaves every other entity unchanged, and the record remains fetchable by
id afterwards. -/
theorem delete_frame :
    ∀ (st : CoreState) (i t : Nat) (st' : CoreState), WF st →
      delete_transaction st i = .ok (t, st') →
      st'.txs = st.txs ∧ st'.recs = st.recs ∧
      (∃ e, lookupKey st.entities i = some e ∧ e.supersededBy = none ∧
        lookupKey st'.entities i =
          some ({ e with supersededBy := some t, supersededAt := some st.now })) ∧
      (∀ j, j ≠ i → j ≠ t → lookupKey st'.entities j = lookupKey st.entities j) ∧
      lookupKey st.entities t = none ∧
      lookupKey st'.entities t = some (freshEntity "transactions" st.now) ∧
      (txGetById st' i).map Prod.snd = (txGetById st i).map Prod.snd ∧
      (txGetById st' i).isSome = true := by
  intro st i t st' hwf hd
  obtain ⟨ht, e, r, he, hr, hnone, hi, htxs, hrecs, hnext, hnow, hent⟩ :=
    delete_tx_ok_spec st i t st' hwf hd
  subst ht
  have hent_i : lookupKey st'.entities i =
      some ({ e with supersededBy := some st.nextId, supersededAt := some st.now }) := by
    rw [hent, lookup_set_self]
  have hg1 : txGetById st' i =
      some ({ e with supersededBy := some st.nextId, supersededAt := some st.now }, r) :=
    (txGetById_some_iff _ _ _ _).mpr ⟨hent_i, by rw [htxs]; exact hr⟩
  have hg0 : txGetById st i = some (e, r) := (txGetById_some_iff _ _ _ _).mpr ⟨he, hr⟩
  refine ⟨htxs, hrecs, ⟨e, he, hnone, hent_i⟩, ?_, ?_, ?_, ?_, ?_⟩
  · intro j hji hjt
    rw [hent, lookup_set_ne _ _ _ _ hji, lookup_set_ne _ _ _ _ hjt]
  · exact (hwf st.nextId (le_refl _)).1
  · rw [hent, lookup_set_ne _ _ _ _ (Ne.symm (Nat.ne_of_lt hi)), lookup_set_self]
  · rw [hg1, hg0]
    rfl
  · rw [hg1]
    rfl

/-- C8 witness: deleting the example transaction keeps the record table
intact and the record fetchable, flips only the supersession fields of the
target entity, and mints the tombstone at the fresh id 1. -/
theorem delete_frame_witness :
    delete_transaction exSt0 exId = .ok (1, delSt) ∧ delSt.txs = exSt0.txs ∧
    lookupKey exSt0.entities 1 = none ∧
    lookupKey delSt.entities 1 = some (freshEntity "transactions" exSt0.now) ∧
    (txGetById delSt exId).isSome = true := by
  have h := delete_frame exSt0 exId 1 delSt WF_exSt0 (by decide)
  exact ⟨by decide, h.1, h.2.2.2.2.1, h.2.2.2.2.2.1, h.2.2.2.2.2.2.2⟩

/-- C9 counterexample: the recurrence update request type carries no
precondition of any kind, so a client that read the recurrence before a
concurrent edit has no way to detect it: its later update is applied with a
200 and never a `Conflict`, even though the row changed under it. -/
theorem recurrence_update_no_conflict_detection :
    (recGetById recSt0 0).map Prod.snd = some recRow0 ∧
    (recGetById recSt1 0).map Prod.snd = some recRow1 ∧
    recRow1 ≠ recRow0 ∧
    ((update_recurrence allRrule allWindow recSt1 0 recUpd2).1).isOk = true ∧
    ((update_recurrence allRrule allWindow recSt1 0 recUpd2).1).isConflict = false := by
  decide

/-- C9 (amended): both kinds offer create, get, update and delete, but only
the transaction kind accepts an update precondition for conflict detection:
a mismatching `based_on_version` on a transaction update is answered with
`Conflict`, while the recurrence update — whatever the validators, state and
request — never produces a `Conflict` at all (its request schema has no
`based_on_hash`/`based_on_version` fields). -/
theorem update_contract_amended :
    (∀ (vr : String → Bool) (vw : Nat → Option Nat → Bool) (st : CoreState) (i : Nat)
      (d : RecurrenceUpdate), ((update_recurrence vr vw st i d).1).isConflict = false) ∧
    (∀ (st : CoreState) (i : Nat) (data : TransactionUpdate) (e : Entity) (r : TxRecord)
      (v : Int), txGetById st i = some (e, r) → hashConflictHit data r = false →
      data.based_on_version = some v → v ≠ (r.version : Int) →
      (update_transaction st i data).1 =
        .conflict ({ message := "Transaction version mismatch", current_hash := r.hash,
                     current_version := r.version, client_hash := none,
                     client_version := some v } : ConflictResponse)) := by
  constructor
  · intro vr vw st i d
    unfold update_recurrence
    split
    · rfl
    · split
      · rfl
      · split
        · split <;> rfl
        · split
          · rfl
          · unfold recApplyUpdate
            split
            · rfl
            · split
              · rfl
              · split <;> rfl
  · intro st i data e r v hg hh hv hne
    exact version_mismatch_conflict st i data e r v hg hh hv hne

/-- C9 witness: the concrete recurrence update is conflict-free, and the
concrete stale transaction update conflicts. -/
theorem update_contract_amended_witness :
    ((update_recurrence allRrule allWindow recSt1 0 recUpd2).1).isConflict = false ∧
    (update_transaction exSt0 exId updStale).1 =
      .conflict ({ message := "Transaction version mismatch", current_hash := exCur.hash,
                   current_version := exCur.version, client_hash := none,
                   client_version := some 0 } : ConflictResponse) := by
  refine ⟨update_contract_amended.1 allRrule allWindow recSt1 0 recUpd2, ?_⟩
  exact update_contract_amended.2 exSt0 exId updStale (freshEntity "transactions" 0) exCur 0
    (by decide) (by decide) (by decide) (by decide)

/-- C10: precondition truthiness.  The hash precondition is enforced only
when `based_on_hash` is a non-empty string — an update carrying the empty
string behaves exactly as if no hash precondition had been given — whereas
`based_on_version` is compared against the current version whenever it is
not null, the value 0 included. -/
theorem precondition_truthiness :
    (∀ (st : CoreState) (i : Nat) (data : TransactionUpdate), data.based_on_hash = some "" →
      update_transaction st i data =
        update_transaction st i { data with based_on_hash := none }) ∧
    (∀ (st : CoreState) (i : Nat) (data : TransactionUpdate) (e : Entity) (r : TxRecord)
      (v : Int), txGetById st i = some (e, r) → hashConflictHit data r = false →
      data.based_on_version = some v → v ≠ (r.version : Int) →
      (update_transaction st i data).1 =
        .conflict ({ message := "Transaction version mismatch", current_hash := r.hash,
                     current_version := r.version, client_hash := none,
                     client_version := some v } : ConflictResponse)) := by
  constructor
  · intro st i data hd
    unfold update_transaction
    cases h1 : updateTxRead st i with
    | none => rfl
    | some cur =>
      unfold updateTxFinish
      have hh : hashConflictHit data cur = false := by simp [hashConflictHit, hd]
      have hh' : hashConflictHit { data with based_on_hash := none } cur = false := by
        simp [hashConflictHit]
      have hvv : versionConflictHit { data with based_on_hash := none } cur =
          versionConflictHit data cur := rfl
      simp [hh, hh', hvv]
  · intro st i data e r v hg hh hv hne
    exact version_mismatch_conflict st i data e r v hg hh hv hne

/-- C10 witness: an update carrying `based_on_hash = ""` and
`based_on_version = 0` — the empty hash is ignored and the version 0 is
compared and rejected. -/
theorem precondition_truthiness_witness :
    updTruthy.based_on_hash = some "" ∧
    update_transaction exSt0 exId updTruthy =
      update_transaction exSt0 exId { updTruthy with based_on_hash := none } ∧
    updTruthy.based_on_version = some 0 ∧
    (update_transaction exSt0 exId updTruthy).1 =
      .conflict ({ message := "Transaction version mismatch", current_hash := exCur.hash,
                   current_version := exCur.version, client_hash := none,
                   client_version := some 0 } : ConflictResponse) := by
  refine ⟨rfl, precondition_truthiness.1 exSt0 exId updTruthy rfl, rfl, ?_⟩
  exact precondition_truthiness.2 exSt0 exId updTruthy (freshEntity "transactions" 0) exCur 0
    (by decide) (by decide) (by decide) (by decide)

end MemoGarden
